import Mathlib

/-!
Verification of the homelib metadata-extraction and archive-maintenance
pipeline (src/xml_processor.py, src/files_processing.py).

The XML data model is a shallow embedding of lxml element trees: an element
has a tag, attributes, leading text, children, and a tail (text after its
closing tag), exactly the fields the source code reads.  Tags and attribute
names are qualified names: lxml writes a namespaced name as one string
holding the namespace URI and the local part; `QName` splits that string
into its two components, so `ns = none` models a plain (local) name.

Python-level operations the source relies on (str.strip, list.sort on
strings, os.path.basename, substring membership, dict insertion semantics)
are embedded as executable Lean functions so that concrete runs evaluate
inside the kernel.
-/

namespace HomeLib

/-- A qualified XML name: lxml writes it as one string, either a plain local
name or a namespace URI followed by the local part. -/
structure QName where
  ns : Option String
  loc : String
deriving DecidableEq, Repr

mutual
/-- One lxml element: tag, attribute dictionary, text before the first
child, children, and tail (text following the closing tag). -/
inductive XElem : Type where
  | mk : QName → List (QName × String) → Option String → XList → Option String → XElem
/-- The child list of an element (a dedicated list type so that all tree
recursions are structural and evaluate definitionally). -/
inductive XList : Type where
  | nil : XList
  | cons : XElem → XList → XList
end

def XElem.tag : XElem → QName
  | .mk t _ _ _ _ => t

def XElem.attrs : XElem → List (QName × String)
  | .mk _ a _ _ _ => a

def XElem.text : XElem → Option String
  | .mk _ _ x _ _ => x

def XElem.children : XElem → XList
  | .mk _ _ _ cs _ => cs

def XElem.tail : XElem → Option String
  | .mk _ _ _ _ tl => tl

def XList.toList : XList → List XElem
  | .nil => []
  | .cons c cs => c :: cs.toList

/-- Render a qualified name the way lxml prints a tag string. -/
def qnameToString (q : QName) : String :=
  match q.ns with
  | none => q.loc
  | some u => "\x7b" ++ u ++ "\x7d" ++ q.loc

/-- Python str.strip on the character list. -/
def stripChars (l : List Char) : List Char :=
  ((l.dropWhile Char.isWhitespace).reverse.dropWhile Char.isWhitespace).reverse

/-- Python str.strip (whitespace removal at both ends). -/
def pstrip (s : String) : String := String.mk (stripChars s.data)

/-- Does the character list start with the given pattern. -/
def startsList : List Char → List Char → Bool
  | _, [] => true
  | [], _ :: _ => false
  | h :: hs, p :: ps => h = p && startsList hs ps

/-- Python substring membership (the `in` operator on strings). -/
def containsList : List Char → List Char → Bool
  | [], p => p.isEmpty
  | h :: hs, p => startsList (h :: hs) p || containsList hs p

def containsSub (s pat : String) : Bool := containsList s.data pat.data

/-- Python str.endswith. -/
def sEndsWith (s suffixStr : String) : Bool :=
  startsList s.data.reverse suffixStr.data.reverse

/-- Split a string on the slash character (used both for os.path.basename
and for reading an XPath location path segment by segment). -/
def splitSegsAux : List Char → List Char → List String
  | [], acc => [String.mk acc.reverse]
  | c :: cs, acc =>
    if c = '/' then String.mk acc.reverse :: splitSegsAux cs []
    else splitSegsAux cs (c :: acc)

def splitSegs (s : String) : List String := splitSegsAux s.data []

/-- os.path.basename: the part of the path after the last slash. -/
def basename (p : String) : String := (splitSegs p).getLastD ""

/-- Code-point comparison of strings, as Python compares them. -/
def charListLe : List Char → List Char → Bool
  | [], _ => true
  | _ :: _, [] => false
  | a :: as, b :: bs =>
    if a.toNat < b.toNat then true
    else if b.toNat < a.toNat then false
    else charListLe as bs

def strLe (a b : String) : Bool := charListLe a.data b.data

/-- Stable ascending insertion into a sorted list. -/
def insertSorted (a : String) : List String → List String
  | [] => [a]
  | b :: rest => if strLe b a then b :: insertSorted a rest else a :: b :: rest

/-- Python list.sort on strings: stable, ascending. -/
def sortStrings : List String → List String
  | [] => []
  | a :: rest => insertSorted a (sortStrings rest)

/-- All elements of a forest in document order (each tree: the root, then
its subtrees). -/
def descendantsL : XList → List XElem
  | .nil => []
  | .cons (.mk t a x cs tl) rest =>
    (XElem.mk t a x cs tl) :: descendantsL cs ++ descendantsL rest

/-- The proper descendants of an element, in document order. -/
def descendants (e : XElem) : List XElem := descendantsL e.children

/-- An element together with all of its descendants, in document order. -/
def allNodes (e : XElem) : List XElem := e :: descendantsL e.children

/-- Text runs of a forest in document order: for each element, its text,
its children recursively, then its tail. -/
def itertextF : XList → List String
  | .nil => []
  | .cons (.mk _ _ x cs tl) rest =>
    (x.toList ++ itertextF cs ++ tl.toList) ++ itertextF rest

/-- lxml Element.itertext: every text run inside the element, in document
order (the tail of the element itself is not included). -/
def itertext (e : XElem) : List String := e.text.toList ++ itertextF e.children

/-- The worker behind the `.//seg1/seg2/...` XPath form that the source
interpolates tag names into: `active` holds the suffixes of the location
path whose earlier segments were matched by a chain of ancestors ending at
the parent of the current node, and a fresh chain may start at any node
(the leading `.//`); a node is selected when some chain ends at it.  Nodes
are visited in document order, so results come back in document order,
each selected node once, as lxml returns them.  The source only ever
interpolates literal tag names and literal slash-separated paths, which is
the fragment embedded here.

`nextSuffixes` advances every candidate chain over a node with tag `t`:
a candidate whose first pending segment names `t` continues with its
remaining segments. -/
def nextSuffixes (t : QName) (cand : List (List String)) : List (List String) :=
  cand.filterMap (fun p =>
    match p with
    | [] => none
    | s :: r => if t = QName.mk none s then some r else none)

def collectForest (full : List String) : XList → List (List String) → List XElem
  | .nil, _ => []
  | .cons (.mk t a x cs tl) rest, active =>
    (if (nextSuffixes t (full :: active)).contains [] then [XElem.mk t a x cs tl]
     else []) ++
      (collectForest full cs
          ((nextSuffixes t (full :: active)).filter (fun p => !p.isEmpty)) ++
        collectForest full rest active)

/-- `e.xpath(".//" + path)` for a literal slash-separated element path. -/
def xpathSelect (e : XElem) (path : String) : List XElem :=
  collectForest (splitSegs path) e.children []

/-- Does an association list of attributes hold the given key. -/
def hasAttrKey (m : List (QName × String)) (k : QName) : Bool :=
  m.any (fun p => decide (p.1 = k))

/-- Python dict assignment `m[k] = v`: overwrite in place when the key is
present, append otherwise. -/
def setAttr (m : List (QName × String)) (k : QName) (v : String) :
    List (QName × String) :=
  if hasAttrKey m k then m.map (fun p => if p.1 = k then (k, v) else p)
  else m ++ [(k, v)]

/-- One iteration of the attribute-renaming loop of
`get_description_element`: for a snapshot key `attr_name`, when its name is
namespaced, `el.attrib[local_attr_name] = el.attrib.pop(attr_name)`. -/
def stripAttrStep (m : List (QName × String)) (k : QName) :
    List (QName × String) :=
  match k.ns with
  | none => m
  | some _ =>
    let popped := (m.find? (fun p => decide (p.1 = k))).map Prod.snd
    let removed := m.filter (fun p => decide (p.1 ≠ k))
    match popped with
    | some v => setAttr removed (QName.mk none k.loc) v
    | none => removed

/-- The attribute-renaming loop: iterate over a snapshot of the keys
(`list(el.attrib)`), renaming every namespaced attribute to its local name. -/
def stripAttrs (m : List (QName × String)) : List (QName × String) :=
  (m.map Prod.fst).foldl stripAttrStep m

/-- The per-element namespace cleanup applied to the whole subtree
(`el.tag = QName(el).localname` plus the attribute loop), over a forest. -/
def stripL : XList → XList
  | .nil => .nil
  | .cons (.mk t a x cs tl) rest =>
    .cons (.mk (QName.mk none t.loc) (stripAttrs a) x (stripL cs) tl)
      (stripL rest)

/-- Namespace cleanup of one element and all of its descendants, the pure
form of the in-place mutation in `get_description_element`. -/
def stripElem : XElem → XElem
  | .mk t a x cs tl =>
    .mk (QName.mk none t.loc) (stripAttrs a) x (stripL cs) tl

/-- First element of the forest, in end-event (postorder) order, whose
local tag name is `description` — the iterparse tag filter is
`"{*}description"`, matching the local name under any namespace. -/
def findDescriptionF : XList → Option XElem
  | .nil => none
  | .cons (.mk t a x cs tl) rest =>
    match findDescriptionF cs with
    | some d => some d
    | none =>
      if t.loc = "description" then some (XElem.mk t a x cs tl)
      else findDescriptionF rest

/-- First `description` element of the document by end event, as
`next(etree.iterparse(fileobj, events=("end",), tag="{*}description"))`
yields it: children end before their parent. -/
def findDescription (root : XElem) : Option XElem :=
  match findDescriptionF root.children with
  | some d => some d
  | none =>
    if root.tag.loc = "description" then some root else none

/-- The outcome of opening and scanning one archived document, which is
the external input of `get_description_element`: the stream parsed
cleanly up to the point of interest, or the parser failed on malformed
XML, or reading the stream failed. -/
inductive DocOutcome : Type where
  | wellFormed (root : XElem)
  | parseError (msg : String)
  | ioError (msg : String)

/-- src/xml_processor.py get_description_element: find the first
`description` element and clean its whole subtree of namespaces; on
StopIteration (no such element) return None, and on any other exception
(malformed XML, stream failure) also return None — the source's final
`except Exception: return None`. -/
def get_description_element (oc : DocOutcome) : Option XElem :=
  match oc with
  | .wellFormed root => (findDescription root).map stripElem
  | .parseError _ => none
  | .ioError _ => none

/-- One catalog record: field name to value, `none` modelling a null cell
(pandas NaN / Python None). -/
abbrev Fields := List (String × Option String)

/-- Python dict assignment on a record: overwrite in place when the key is
present, append otherwise. -/
def dictSet (m : Fields) (k : String) (v : Option String) : Fields :=
  if m.any (fun p => decide (p.1 = k)) then
    m.map (fun p => if p.1 = k then (k, v) else p)
  else m ++ [(k, v)]

/-- Python dict.update: assign every pair of `adds` in order. -/
def dictUpdate (m adds : Fields) : Fields :=
  adds.foldl (fun acc p => dictSet acc p.1 p.2) m

/-- Value of a field, when the key is present. -/
def lookupField (r : Fields) (k : String) : Option (Option String) :=
  (r.find? (fun p => decide (p.1 = k))).map Prod.snd

/-- The field names of a record, in order. -/
def recordKeys (r : Fields) : List String := r.map Prod.fst

/-- XML text escaping used when serializing text content. -/
def escChars : List Char → List Char
  | [] => []
  | c :: rest =>
    (if c = '&' then "&amp;".data
     else if c = '<' then "&lt;".data
     else if c = '>' then "&gt;".data
     else [c]) ++ escChars rest

def escText (s : String) : String := String.mk (escChars s.data)

/-- XML attribute-value escaping. -/
def escAttrChars : List Char → List Char
  | [] => []
  | c :: rest =>
    (if c = '&' then "&amp;".data
     else if c = '<' then "&lt;".data
     else if c = '>' then "&gt;".data
     else if c = '"' then "&quot;".data
     else [c]) ++ escAttrChars rest

def escAttr (s : String) : String := String.mk (escAttrChars s.data)

def serializeAttrs (attrs : List (QName × String)) : String :=
  String.join (attrs.map (fun p =>
    " " ++ qnameToString p.1 ++ "=\"" ++ escAttr p.2 ++ "\""))

def isNilB : XList → Bool
  | .nil => true
  | .cons _ _ => false

/-- Serialize a forest as lxml etree.tostring writes element sequences: an
element with no text and no children self-closes, and each element is
followed by its tail text. -/
def serializeF : XList → String
  | .nil => ""
  | .cons (.mk t a x cs tl) rest =>
    (if x = none && isNilB cs then
      "<" ++ qnameToString t ++ serializeAttrs a ++ "/>"
    else
      "<" ++ qnameToString t ++ serializeAttrs a ++ ">" ++
        escText (x.getD "") ++ serializeF cs ++
        "</" ++ qnameToString t ++ ">") ++
      escText (tl.getD "") ++ serializeF rest

/-- Serialize one element (the tail of the serialized root itself is not
modelled; in the pipeline the reparse step would reject non-whitespace
trailing text anyway). -/
def serializeElem : XElem → String
  | .mk t a x cs _ =>
    if x = none && isNilB cs then
      "<" ++ qnameToString t ++ serializeAttrs a ++ "/>"
    else
      "<" ++ qnameToString t ++ serializeAttrs a ++ ">" ++
        escText (x.getD "") ++ serializeF cs ++
        "</" ++ qnameToString t ++ ">"

/-- A text node that the remove_blank_text parser drops: whitespace only. -/
def dropBlankOpt : Option String → Option String
  | some s => if pstrip s = "" then none else some s
  | none => none

/-- Effect of reparsing with `etree.XMLParser(remove_blank_text=True)`:
whitespace-only text runs disappear. -/
def removeBlankL : XList → XList
  | .nil => .nil
  | .cons (.mk t a x cs tl) rest =>
    .cons (.mk t a (dropBlankOpt x) (removeBlankL cs) (dropBlankOpt tl))
      (removeBlankL rest)

def removeBlankE : XElem → XElem
  | .mk t a x cs tl =>
    .mk t a (dropBlankOpt x) (removeBlankL cs) (dropBlankOpt tl)

/-- Tree-level effect of the source's regex pass
`re.sub(r'<description[^>]*>', r'<description>', ...)`: every opening tag
of an element named `description` loses its attributes (the tree the
pipeline feeds in is already namespace-stripped, so the relevant tag is the
plain local name). -/
def dropDescAttrsL : XList → XList
  | .nil => .nil
  | .cons (.mk t a x cs tl) rest =>
    .cons (.mk t (if t = QName.mk none "description" then [] else a) x
      (dropDescAttrsL cs) tl) (dropDescAttrsL rest)

def dropDescAttrsE : XElem → XElem
  | .mk t a x cs tl =>
    .mk t (if t = QName.mk none "description" then [] else a) x
      (dropDescAttrsL cs) tl

/-- src/xml_processor.py description_string: strip the description opening
tags of their attributes, reparse compactly (dropping blank text), and
return the serialization under the single field `description`. -/
def description_string (e : XElem) : Fields :=
  [("description", some (serializeElem (removeBlankE (dropDescAttrsE e))))]

/-- src/xml_processor.py description_taglist: for each direct child of the
description element, one field keyed by that child's tag, holding the
comma-joined sorted tags of its own direct children. -/
def description_taglist (e : XElem) : Fields :=
  (e.children.toList).foldl (fun data element =>
    dictSet data (qnameToString element.tag)
      (some (String.intercalate ", "
        (sortStrings ((element.children.toList).map
          (fun child => qnameToString child.tag)))))) []

/-- The text value extracted per matched tag in description_child_ontag:
`" ".join([s.strip() for s in tag.itertext() if s.strip()])`. -/
def joinedText (e : XElem) : String :=
  String.intercalate " " ((itertext e).filterMap (fun s =>
    if pstrip s = "" then none else some (pstrip s)))

/-- The numbering loop `for i, tag in enumerate(found_tags, 1)` building
field `<child_tag_name><i>` per match. -/
def numberedFields (child_tag_name : String) : Nat → List XElem → Fields
  | _, [] => []
  | i, tg :: rest =>
    (child_tag_name ++ toString i, some (joinedText tg)) ::
      numberedFields child_tag_name (i + 1) rest

/-- src/xml_processor.py description_child_ontag: all matches of
`.//child_tag_name` inside the description element; zero matches still
yield the single field `<child_tag_name>1` with a null value. -/
def description_child_ontag (e : XElem) (child_tag_name : String) : Fields :=
  let found_tags := xpathSelect e child_tag_name
  if found_tags.isEmpty then [(child_tag_name ++ "1", none)]
  else numberedFields child_tag_name 1 found_tags

/-- src/xml_processor.py description_child_ontag_all: the values of
description_child_ontag in order (null read as the empty string), joined
with "; " into one field named exactly `child_tag_name`. -/
def description_child_ontag_all (e : XElem) (child_tag_name : String) :
    Fields :=
  let info := description_child_ontag e child_tag_name
  [(child_tag_name,
    some (String.intercalate "; " (info.map (fun p => p.2.getD ""))))]

/-- lxml findtext with a default: the text of the first direct child with
the given tag, the empty string when the child has no text, the default
(here always the empty string) when there is no such child. -/
def findtextD (e : XElem) (t : String) : String :=
  match (e.children.toList).find? (fun c => decide (c.tag = QName.mk none t)) with
  | some c => c.text.getD ""
  | none => ""

/-- The full-name assembly of get_authors_string: first, middle and last
name each independently stripped, empty parts dropped, the rest joined
with single spaces. -/
def full_name (author : XElem) : String :=
  String.intercalate " "
    ([pstrip (findtextD author "first-name"),
      pstrip (findtextD author "middle-name"),
      pstrip (findtextD author "last-name")].filter (fun part => decide (part ≠ "")))

/-- src/xml_processor.py get_authors_string: all `.//title-info/author`
elements; `author` joins the non-empty assembled names with "; ", and
`id_author` independently joins the non-empty stripped id texts. -/
def get_authors_string (e : XElem) : Fields :=
  let author_elements := xpathSelect e "title-info/author"
  let full_names := author_elements.map full_name
  let final_authors_string :=
    String.intercalate "; " (full_names.filter (fun name => decide (name ≠ "")))
  let ids := String.intercalate "; "
    ((author_elements.map (fun author => pstrip (findtextD author "id"))).filter
      (fun part => decide (part ≠ "")))
  [("author", some final_authors_string), ("id_author", some ids)]

/-- src/xml_processor.py catalog: authors, then the three joined tag-text
fields, then the serialized description, merged in that order. -/
def catalog (e : XElem) : Fields :=
  dictUpdate (dictUpdate (dictUpdate (dictUpdate (get_authors_string e)
    (description_child_ontag_all e "title-info/genre"))
    (description_child_ontag_all e "title-info/book-title"))
    (description_child_ontag_all e "title-info/lang"))
    (description_string e)

/-- Result of calling one processor: its field mapping, or the message of
the exception the call raised. -/
abbrev ProcResult := Except String Fields

/-- Python keyword-argument binding for `processor_func(element, **kwargs)`
when the processor takes a mandatory `child_tag_name`. -/
def call_description_child_ontag (e : XElem) (kw : Option String) : ProcResult :=
  match kw with
  | some t => .ok (description_child_ontag e t)
  | none =>
    .error "description_child_ontag() missing 1 required positional argument: child_tag_name"

def call_description_child_ontag_all (e : XElem) (kw : Option String) :
    ProcResult :=
  match kw with
  | some t => .ok (description_child_ontag_all e t)
  | none =>
    .error "description_child_ontag_all() missing 1 required positional argument: child_tag_name"

def call_description_taglist (e : XElem) (kw : Option String) : ProcResult :=
  match kw with
  | none => .ok (description_taglist e)
  | some _ => .error "description_taglist() got an unexpected keyword argument"

def call_description_string (e : XElem) (kw : Option String) : ProcResult :=
  match kw with
  | none => .ok (description_string e)
  | some _ => .error "description_string() got an unexpected keyword argument"

def call_get_authors_string (e : XElem) (kw : Option String) : ProcResult :=
  match kw with
  | none => .ok (get_authors_string e)
  | some _ => .error "get_authors_string() got an unexpected keyword argument"

def call_catalog (e : XElem) (kw : Option String) : ProcResult :=
  match kw with
  | none => .ok (catalog e)
  | some _ => .error "catalog() got an unexpected keyword argument"

/-- src/xml_processor.py DESC_PROCESSORS: the registry of processors. -/
def DESC_PROCESSORS : List (String × (XElem → Option String → ProcResult)) :=
  [("description_child_ontag", call_description_child_ontag),
   ("description_taglist", call_description_taglist),
   ("description_string", call_description_string),
   ("description_child_ontag_all", call_description_child_ontag_all),
   ("get_authors_string", call_get_authors_string),
   ("catalog", call_catalog)]

/-- `DESC_PROCESSORS.get(func)`. -/
def lookupProcessor (func : String) :
    Option (XElem → Option String → ProcResult) :=
  (DESC_PROCESSORS.find? (fun p => decide (p.1 = func))).map Prod.snd

/-- The message of the ValueError raised when no description is found. -/
def notFoundMsg : String := "Тег <description> не найден в файле."

/-- The message of the ValueError raised for an unregistered processor. -/
def unknownProcMsg : String := "Функция обработчик не найдена"

/-- src/xml_processor.py description_processor: extract the description
element, then dispatch on the processor name; every failure is folded into
a record holding the provenance fields and a single `error` field. -/
def description_processor (oc : DocOutcome) (fname file_path func : String)
    (kw : Option String) : Fields :=
  match get_description_element oc with
  | none =>
    [("zipfile", some (basename file_path)), ("xml_filename", some fname),
      ("error", some notFoundMsg)]
  | some description_element =>
    match lookupProcessor func with
    | some processor_func =>
      match processor_func description_element kw with
      | .ok info_res =>
        dictUpdate
          [("zipfile", some (basename file_path)),
            ("xml_filename", some fname)] info_res
      | .error msg =>
        [("zipfile", some (basename file_path)), ("xml_filename", some fname),
          ("error", some msg)]
    | none =>
      [("zipfile", some (basename file_path)), ("xml_filename", some fname),
        ("error", some unknownProcMsg)]

/-- The document-entry filter of process_zipfile:
`fname.endswith(".fb2") and not fname.endswith("/")`. -/
def isDocEntry (fname : String) : Bool :=
  sEndsWith fname ".fb2" && !(sEndsWith fname "/")

/-- One cell of `df.replace('', np.nan)`: an empty-string value becomes
null, everything else is unchanged. -/
def coerceValue : Option String → Option String
  | some s => if s = "" then none else some s
  | none => none

def coerceRecord (r : Fields) : Fields :=
  r.map (fun p => (p.1, coerceValue p.2))

/-- Modelled from the spec: the optional post-pass that coerces
empty-string field values to null uniformly across the accumulated
RecordSet before it leaves the pipeline — one pass over the whole result,
stated here to compare against what process_zipfile actually computes. -/
def coerceRecordSet (rs : List Fields) : List Fields := rs.map coerceRecord

/-- An archive as the batch sees it: the entry list in namelist order, each
entry name paired with the outcome of opening and scanning its stream. -/
abbrev ZipArchive := List (String × DocOutcome)

/-- src/files_processing.py process_zipfile (the DataFrame-returning path):
every `.fb2` non-directory entry produces one record via
description_processor, empty strings replaced by null per record, all
records concatenated in entry order. -/
def process_zipfile (file_path : String) (archive : ZipArchive)
    (func : String) (kw : Option String) : List Fields :=
  (archive.filter (fun en => isDocEntry en.1)).map (fun en =>
    coerceRecord (description_processor en.2 en.1 file_path func kw))

/-- process_zipfile without the per-record empty-string replacement: the
raw accumulated records, used to state the coercion refinement. -/
def process_zipfile_raw (file_path : String) (archive : ZipArchive)
    (func : String) (kw : Option String) : List Fields :=
  (archive.filter (fun en => isDocEntry en.1)).map (fun en =>
    description_processor en.2 en.1 file_path func kw)

/-- src/files_processing.py process_zipfolder (bd_insert=False path):
concatenate the per-archive record sets in folder-listing order. -/
def process_zipfolder (zip_files : List (String × ZipArchive))
    (func : String) (kw : Option String) : List Fields :=
  (zip_files.map (fun z => process_zipfile z.1 z.2 func kw)).flatten

/-- Result of one external 7z invocation (`subprocess.run` with
check=True): clean exit, non-zero exit (CalledProcessError carrying the
captured output), or the binary being absent (FileNotFoundError). -/
inductive RunResult : Type where
  | success
  | calledProcessError (stdout stderr : String)
  | fileNotFound
deriving DecidableEq, Repr

/-- One archive of a clear_zipfolder run: the grouped file list from the
catalog query, plus the environment's behavior for this archive — whether
the zip exists on disk, and what the `7z d` invocation would return. -/
structure ClearJob where
  zipname : String
  files : List String
  present : Bool
  deleteResult : RunResult
deriving DecidableEq, Repr

/-- One archive of a repack_zipfolder run: grouped keep list, source
archive existence, the result of the `7z x` extraction, the number of
files found in the temp directory afterwards, and the result of the
`7z a` recompression. -/
structure RepackJob where
  zipname : String
  files : List String
  present : Bool
  extractResult : RunResult
  extractedCount : Nat
  addResult : RunResult
deriving DecidableEq, Repr

/-- The observable per-archive outcomes of the maintenance loops (each
corresponds to one status print of the source). -/
inductive MEvent : Type where
  | archiveMissing (zipname : String)
  | noFiles (zipname : String)
  | deleted (zipname : String) (count : Nat)
  | toolMissingFatal
  | toolFailed (zipname : String) (stderr : String)
  | noMatches (zipname : String)
  | createdArchive (zipname : String) (count : Nat)
deriving DecidableEq, Repr

/-- The loop body of clear_zipfolder for one archive: what is reported,
and whether the loop continues (False only for the `break` on
FileNotFoundError, the missing 7z binary). -/
def clearStep (j : ClearJob) : MEvent × Bool :=
  if !j.present then (.archiveMissing j.zipname, true)
  else if j.files.isEmpty then (.noFiles j.zipname, true)
  else
    match j.deleteResult with
    | .success => (.deleted j.zipname j.files.length, true)
    | .calledProcessError _ se => (.toolFailed j.zipname se, true)
    | .fileNotFound => (.toolMissingFatal, false)

/-- src/files_processing.py clear_zipfolder: fold the loop body over the
grouped archives, stopping at the first fatal step. -/
def clear_zipfolder : List ClearJob → List MEvent
  | [] => []
  | j :: rest =>
    match clearStep j with
    | (ev, true) => ev :: clear_zipfolder rest
    | (ev, false) => [ev]

/-- `"No files to process" in e.stdout or "No files to process" in
e.stderr` — the 7z output pattern repack_zipfolder treats as an empty
intersection rather than a failure. -/
def noFilesPattern (stdout stderr : String) : Bool :=
  containsSub stdout "No files to process" ||
    containsSub stderr "No files to process"

/-- The loop body of repack_zipfolder for one archive: skip a missing
source, extract, count the extracted files (zero means nothing from the
keep list is present, so no destination archive is written), recompress.
Either subprocess raising FileNotFoundError (missing 7z binary) breaks
the loop; a CalledProcessError whose output shows "No files to process"
is reported as the no-matches status, any other one as a failure. -/
def repackStep (j : RepackJob) : List MEvent × Bool :=
  if !j.present then ([.archiveMissing j.zipname], true)
  else if j.files.isEmpty then ([.noFiles j.zipname], true)
  else
    match j.extractResult with
    | .fileNotFound => ([.toolMissingFatal], false)
    | .calledProcessError so se =>
      if noFilesPattern so se then ([.noMatches j.zipname], true)
      else ([.toolFailed j.zipname se], true)
    | .success =>
      if j.extractedCount = 0 then ([.noMatches j.zipname], true)
      else
        match j.addResult with
        | .fileNotFound => ([.toolMissingFatal], false)
        | .calledProcessError so se =>
          if noFilesPattern so se then ([.noMatches j.zipname], true)
          else ([.toolFailed j.zipname se], true)
        | .success => ([.createdArchive j.zipname j.extractedCount], true)

/-- src/files_processing.py repack_zipfolder: fold the loop body over the
grouped archives, stopping at the first fatal step. -/
def repack_zipfolder : List RepackJob → List MEvent
  | [] => []
  | j :: rest =>
    match repackStep j with
    | (evs, true) => evs ++ repack_zipfolder rest
    | (evs, false) => evs

/-! ### Induction principles and basic lemmas -/

/-- Simultaneous induction over an element, threading a predicate over
child lists. -/
theorem xElemInd (P : XElem → Prop) (Q : XList → Prop)
    (hmk : ∀ t a x cs tl, Q cs → P (.mk t a x cs tl))
    (hnil : Q .nil)
    (hcons : ∀ e l, P e → Q l → Q (.cons e l)) :
    ∀ e, P e :=
  fun e => @XElem.rec P Q hmk hnil hcons e

/-- Simultaneous induction over a child list. -/
theorem xListInd (P : XElem → Prop) (Q : XList → Prop)
    (hmk : ∀ t a x cs tl, Q cs → P (.mk t a x cs tl))
    (hnil : Q .nil)
    (hcons : ∀ e l, P e → Q l → Q (.cons e l)) :
    ∀ l, Q l :=
  fun l => @XList.rec P Q hmk hnil hcons l

theorem coerceRecord_keys (r : Fields) :
    recordKeys (coerceRecord r) = recordKeys r := by
  simp [recordKeys, coerceRecord, List.map_map]

theorem dictSet_keys_sup (m : Fields) (k : String) (v : Option String) :
    ∀ a ∈ recordKeys m, a ∈ recordKeys (dictSet m k v) := by
  intro a ha
  unfold dictSet
  split
  · have : recordKeys (m.map (fun p => if p.1 = k then (k, v) else p)) =
        recordKeys m := by
      simp only [recordKeys, List.map_map]
      apply List.map_congr_left
      intro p _
      by_cases hp : p.1 = k
      · simp [hp]
      · simp [hp]
    rw [this]
    exact ha
  · simp only [recordKeys, List.map_append]
    exact List.mem_append_left _ ha

theorem dictUpdate_keys_sup :
    ∀ (adds m : Fields) (a : String), a ∈ recordKeys m →
      a ∈ recordKeys (dictUpdate m adds) := by
  intro adds
  induction adds with
  | nil => intro m a ha; exact ha
  | cons p rest ih =>
    intro m a ha
    rw [show dictUpdate m (p :: rest) = dictUpdate (dictSet m p.1 p.2) rest from rfl]
    exact ih (dictSet m p.1 p.2) a (dictSet_keys_sup m p.1 p.2 a ha)

/-! ### C6: tag_text_joined as a function of tag_text -/

/-- C6: for every description tree and tag name, description_child_ontag_all
performs the same search as description_child_ontag and returns exactly one
field, keyed exactly by the tag name, whose value joins the values of
description_child_ontag in the same order with "; ", a null value read as
the empty string. -/
theorem tag_text_joined_field (e : XElem) (t : String) :
    description_child_ontag_all e t =
      [(t, some (String.intercalate "; "
        ((description_child_ontag e t).map (fun p => p.2.getD ""))))] := rfl

/-! ### C7: the empty-string coercion commutes with accumulation -/

theorem process_zipfile_coerce (file_path : String) (archive : ZipArchive)
    (func : String) (kw : Option String) :
    process_zipfile file_path archive func kw =
      coerceRecordSet (process_zipfile_raw file_path archive func kw) := by
  simp [process_zipfile, process_zipfile_raw, coerceRecordSet, List.map_map]

/-- C7: the batch result of process_zipfolder (which replaces empty strings
per entry record, before concatenation) equals the result of accumulating
all raw per-entry records first and then applying the empty-string-to-null
coercion in one uniform pass over the whole accumulated RecordSet. -/
theorem coercion_single_pass_refinement
    (zip_files : List (String × ZipArchive)) (func : String)
    (kw : Option String) :
    process_zipfolder zip_files func kw =
      coerceRecordSet (zip_files.flatMap (fun z =>
        process_zipfile_raw z.1 z.2 func kw)) := by
  induction zip_files with
  | nil => rfl
  | cons z rest ih =>
    simp only [process_zipfolder, List.map_cons, List.flatten_cons,
      List.flatMap_cons, coerceRecordSet, List.map_append] at *
    rw [ih, process_zipfile_coerce]
    rfl

/-! ### C4: the numbered tag_text fields -/

theorem nextSuffixes_single (t : QName) (t0 : String) :
    nextSuffixes t [[t0]] =
      if t = QName.mk none t0 then [[]] else [] := by
  unfold nextSuffixes
  by_cases h : t = QName.mk none t0 <;> simp [h]

/-- For a one-segment path the XPath engine selects exactly the proper
descendants carrying that local tag name, in document order. -/
theorem collectForest_single (t0 : String) :
    ∀ l : XList, collectForest [t0] l [] =
      (descendantsL l).filter (fun n => decide (n.tag = QName.mk none t0)) := by
  refine xListInd
    (fun e => collectForest [t0] e.children [] =
      (descendantsL e.children).filter
        (fun n => decide (n.tag = QName.mk none t0)))
    (fun l => collectForest [t0] l [] =
      (descendantsL l).filter (fun n => decide (n.tag = QName.mk none t0)))
    ?_ ?_ ?_
  · intro t a x cs tl h
    exact h
  · rfl
  · intro e l ihe ihl
    obtain ⟨t, a, x, cs, tl⟩ := e
    have hcs : XElem.children (.mk t a x cs tl) = cs := rfl
    rw [hcs] at ihe
    show (if (nextSuffixes t [[t0]]).contains [] then [XElem.mk t a x cs tl]
        else []) ++
        (collectForest [t0] cs
            ((nextSuffixes t [[t0]]).filter (fun p => !p.isEmpty)) ++
          collectForest [t0] l []) = _
    rw [nextSuffixes_single]
    by_cases h : t = QName.mk none t0
    · subst h
      simp [ihe, ihl, descendantsL, XElem.tag, List.filter_cons]
    · simp [h, ihe, ihl, descendantsL, XElem.tag, List.filter_cons]

theorem numberedFields_length (name : String) :
    ∀ (l : List XElem) (i : Nat), (numberedFields name i l).length = l.length := by
  intro l
  induction l with
  | nil => intro i; rfl
  | cons v rest ih => intro i; simp [numberedFields, ih]

theorem numberedFields_getElem (name : String) :
    ∀ (l : List XElem) (i j : Nat) (h : j < l.length),
      (numberedFields name i l)[j]? =
        some (name ++ toString (i + j), some (joinedText (l.get ⟨j, h⟩))) := by
  intro l
  induction l with
  | nil => intro i j h; simp at h
  | cons v rest ih =>
    intro i j h
    cases j with
    | zero => simp [numberedFields]
    | succ j' =>
      simp only [numberedFields, List.getElem?_cons_succ, List.get_cons_succ]
      rw [ih (i + 1) j' (by simpa using h)]
      have harith : i + 1 + j' = i + (j' + 1) := by omega
      rw [harith]

/-- C4: for every description tree and plain tag name, the search is over
all descendants with that local name in document order; with zero matches
the single field `<t>1` holds a null value, and with k matches the fields
are `<t>1` .. `<t>k` in document order, the i-th holding the i-th match's
concatenated descendant text (runs stripped, whitespace-only runs dropped,
joined with single spaces — `joinedText`). -/
theorem tag_text_fields (e : XElem) (t : String)
    (hplain : splitSegs t = [t]) :
    (xpathSelect e t =
      (descendants e).filter (fun n => decide (n.tag = QName.mk none t))) ∧
    ((xpathSelect e t).isEmpty = true →
      description_child_ontag e t = [(t ++ "1", none)]) ∧
    ((xpathSelect e t).isEmpty = false →
      (description_child_ontag e t).length = (xpathSelect e t).length ∧
      ∀ (i : Nat) (h : i < (xpathSelect e t).length),
        (description_child_ontag e t)[i]? =
          some (t ++ toString (i + 1),
            some (joinedText ((xpathSelect e t).get ⟨i, h⟩)))) := by
  have hsel : xpathSelect e t =
      (descendants e).filter (fun n => decide (n.tag = QName.mk none t)) := by
    unfold xpathSelect
    rw [hplain]
    exact collectForest_single t e.children
  refine ⟨hsel, ?_, ?_⟩
  · intro hempty
    simp [description_child_ontag, hempty]
  · intro hne
    have hform : description_child_ontag e t =
        numberedFields t 1 (xpathSelect e t) := by
      simp [description_child_ontag, hne]
    refine ⟨by rw [hform, numberedFields_length], ?_⟩
    intro i h
    rw [hform, numberedFields_getElem t _ 1 i h]
    have harith : (1 : Nat) + i = i + 1 := by omega
    rw [harith]

def sampleGenreDesc : XElem :=
  .mk (QName.mk none "description") [] none
    (.cons (.mk (QName.mk none "title-info") [] none
      (.cons (.mk (QName.mk none "genre") [] (some "sf") .nil none)
       (.cons (.mk (QName.mk none "genre") [] (some " detective ") .nil none)
        .nil)) none) .nil) none

def sampleNoGenreDesc : XElem :=
  .mk (QName.mk none "description") [] none .nil none

theorem tag_text_fields_witness :
    description_child_ontag sampleNoGenreDesc "genre" = [("genre1", none)] ∧
    (description_child_ontag sampleGenreDesc "genre")[0]? =
      some ("genre1", some "sf") ∧
    (description_child_ontag sampleGenreDesc "genre")[1]? =
      some ("genre2", some "detective") := by
  have h1 := (tag_text_fields sampleNoGenreDesc "genre" (by decide)).2.1
    (by decide)
  have h2 := (tag_text_fields sampleGenreDesc "genre" (by decide)).2.2
    (by decide)
  refine ⟨h1, ?_, ?_⟩
  · exact (h2.2 0 (by decide)).trans (by decide)
  · exact (h2.2 1 (by decide)).trans (by decide)

/-! ### C2: the stripped tree carries no namespaced name -/

theorem setAttr_keys (m : List (QName × String)) (k : QName) (v : String) :
    ∀ q ∈ (setAttr m k v).map Prod.fst, q ∈ m.map Prod.fst ∨ q = k := by
  intro q hq
  unfold setAttr at hq
  split at hq
  · rw [List.map_map] at hq
    obtain ⟨p, hp, hpq⟩ := List.mem_map.mp hq
    by_cases hpk : p.1 = k
    · right
      simp only [Function.comp, hpk, if_pos rfl] at hpq
      exact hpq.symm
    · left
      simp only [Function.comp, if_neg hpk] at hpq
      exact hpq ▸ List.mem_map_of_mem Prod.fst hp
  · rw [List.map_append] at hq
    rcases List.mem_append.mp hq with h | h
    · exact Or.inl h
    · right
      simp at h
      exact h

theorem filter_ne_keys (m : List (QName × String)) (k : QName) :
    ∀ q ∈ (m.filter (fun p => decide (p.1 ≠ k))).map Prod.fst,
      q ∈ m.map Prod.fst ∧ q ≠ k := by
  intro q hq
  obtain ⟨p, hp, hpq⟩ := List.mem_map.mp hq
  have hmem := List.mem_filter.mp hp
  refine ⟨hpq ▸ List.mem_map_of_mem Prod.fst hmem.1, ?_⟩
  have := of_decide_eq_true hmem.2
  exact hpq ▸ this

/-- Every key surviving the snapshot fold is a plain local name, provided
every namespaced key of the starting dictionary appears in the remaining
snapshot — the renaming loop's invariant. -/
theorem foldl_stripAttrStep_nsFree :
    ∀ (ks : List QName) (m : List (QName × String)),
      (∀ q ∈ m.map Prod.fst, q.ns ≠ none → q ∈ ks) →
      ∀ q ∈ (ks.foldl stripAttrStep m).map Prod.fst, q.ns = none := by
  intro ks
  induction ks with
  | nil =>
    intro m h q hq
    by_contra hns
    exact List.not_mem_nil q (h q hq hns)
  | cons k ks ih =>
    intro m h q hq
    rw [List.foldl_cons] at hq
    refine ih (stripAttrStep m k) ?_ q hq
    intro q' hq' hns'
    unfold stripAttrStep at hq'
    cases hk : k.ns with
    | none =>
      rw [hk] at hq'
      rcases List.mem_cons.mp (h q' hq' hns') with hhead | htail
      · exact absurd (hhead ▸ hk) hns'
      · exact htail
    | some u =>
      rw [hk] at hq'
      simp only at hq'
      have hq'' : q' ∈ (m.filter (fun p => decide (p.1 ≠ k))).map Prod.fst := by
        cases hfind : (m.find? (fun p => decide (p.1 = k))).map Prod.snd with
        | some v =>
          rw [hfind] at hq'
          rcases setAttr_keys _ (QName.mk none k.loc) v q' hq' with hrem | heq
          · exact hrem
          · exact absurd (by rw [heq]) hns'
        | none =>
          rw [hfind] at hq'
          exact hq'
      obtain ⟨hin, hne⟩ := filter_ne_keys m k q' hq''
      rcases List.mem_cons.mp (h q' hin hns') with hhead | htail
      · exact absurd hhead hne
      · exact htail

theorem stripAttrs_nsFree (m : List (QName × String)) :
    ∀ q ∈ (stripAttrs m).map Prod.fst, q.ns = none :=
  foldl_stripAttrStep_nsFree (m.map Prod.fst) m (fun _ hq _ => hq)

/-- A node whose tag and attribute names are all plain local names. -/
def NodeNsFree (n : XElem) : Prop :=
  n.tag.ns = none ∧ ∀ p ∈ n.attrs, p.1.ns = none

theorem stripElem_head_nsFree (t : QName) (a : List (QName × String))
    (x : Option String) (cs : XList) (tl : Option String) :
    NodeNsFree (XElem.mk (QName.mk none t.loc) (stripAttrs a) x cs tl) := by
  refine ⟨rfl, ?_⟩
  intro p hp
  exact stripAttrs_nsFree a p.1 (List.mem_map_of_mem Prod.fst hp)

theorem strip_allNodes_nsFree :
    ∀ e : XElem, ∀ n ∈ allNodes (stripElem e), NodeNsFree n := by
  refine xElemInd (fun e => ∀ n ∈ allNodes (stripElem e), NodeNsFree n)
    (fun l => ∀ n ∈ descendantsL (stripL l), NodeNsFree n) ?_ ?_ ?_
  · intro t a x cs tl ih n hn
    rcases List.mem_cons.mp hn with hhead | htail
    · exact hhead ▸ stripElem_head_nsFree t a x (stripL cs) tl
    · exact ih n htail
  · intro n hn
    exact absurd hn (List.not_mem_nil n)
  · intro e l ihe ihl n hn
    obtain ⟨t, a, x, cs, tl⟩ := e
    have hexp : descendantsL (stripL (.cons (.mk t a x cs tl) l)) =
        (XElem.mk (QName.mk none t.loc) (stripAttrs a) x (stripL cs) tl) ::
          (descendantsL (stripL cs) ++ descendantsL (stripL l)) := rfl
    rw [hexp] at hn
    rcases List.mem_cons.mp hn with hhead | htail
    · exact ihe n (hhead ▸ List.mem_cons_self _ _)
    · rcases List.mem_append.mp htail with hmid | hright
      · exact ihe n (List.mem_cons_of_mem _ hmid)
      · exact ihl n hright

/-- C2: whenever the parser returns a description tree, every element tag
and every attribute name in that tree is a plain local name (no namespace
component) — so every processor consuming the tree sees only local
names. -/
theorem parser_namespace_free (oc : DocOutcome) (elem : XElem)
    (h : get_description_element oc = some elem) :
    ∀ n ∈ allNodes elem, n.tag.ns = none ∧ ∀ p ∈ n.attrs, p.1.ns = none := by
  cases oc with
  | wellFormed root =>
    simp only [get_description_element, Option.map_eq_some'] at h
    obtain ⟨d, _, rfl⟩ := h
    exact strip_allNodes_nsFree d
  | parseError m => simp [get_description_element] at h
  | ioError m => simp [get_description_element] at h

/-- A document whose root and description subtree declare namespaces, with
a namespaced attribute on the description element. -/
def nsSampleDoc : XElem :=
  .mk (QName.mk (some "http://www.gribuser.ru/xml/fictionbook/2.0") "FictionBook")
    [] none
    (.cons
      (.mk (QName.mk (some "http://www.gribuser.ru/xml/fictionbook/2.0")
          "description")
        [(QName.mk (some "http://www.w3.org/1999/xlink") "href", "#note")]
        none
        (.cons (.mk (QName.mk (some "http://www.gribuser.ru/xml/fictionbook/2.0")
          "title-info") [] none .nil none) .nil)
        none)
      .nil)
    none

/-- The description subtree of nsSampleDoc as the parser returns it. -/
def nsSampleStripped : XElem :=
  stripElem
    (.mk (QName.mk (some "http://www.gribuser.ru/xml/fictionbook/2.0")
        "description")
      [(QName.mk (some "http://www.w3.org/1999/xlink") "href", "#note")]
      none
      (.cons (.mk (QName.mk (some "http://www.gribuser.ru/xml/fictionbook/2.0")
        "title-info") [] none .nil none) .nil)
      none)

theorem parser_namespace_free_witness : nsSampleStripped.tag.ns = none :=
  (parser_namespace_free (DocOutcome.wellFormed nsSampleDoc) nsSampleStripped
    rfl nsSampleStripped (List.mem_cons_self _ _)).1

/-! ### C1: one record per document entry, success or error, never mixed -/

/-- The shape of a failure record: the two provenance fields followed by a
single error field and nothing else. -/
def IsErrShape (r : Fields) : Prop :=
  ∃ z x v, r = [("zipfile", z), ("xml_filename", x), ("error", v)]

/-- The shape of a success record: the provenance fields merged (Python
dict update) with the output that the chosen registered processor
actually returned for some description tree. -/
def IsOkShape (func : String) (kw : Option String) (r : Fields) : Prop :=
  ∃ (z x : Option String) (p : XElem → Option String → ProcResult) (e : XElem)
    (fields : Fields),
    lookupProcessor func = some p ∧ p e kw = Except.ok fields ∧
    r = coerceRecord (dictUpdate [("zipfile", z), ("xml_filename", x)] fields)

/-- C1: over one archive, process_zipfile yields exactly one record per
entry whose name ends in ".fb2" and is not a directory marker, whatever
the processor name; every record carries the zipfile and xml_filename
provenance keys, and is either an error record (provenance plus exactly
one error field) or a success record (provenance merged with processor
output), never a mixture. -/
theorem batch_record_shape (file_path func : String) (kw : Option String)
    (archive : ZipArchive) :
    (process_zipfile file_path archive func kw).length =
      (archive.filter (fun en => isDocEntry en.1)).length ∧
    ∀ r ∈ process_zipfile file_path archive func kw,
      "zipfile" ∈ recordKeys r ∧ "xml_filename" ∈ recordKeys r ∧
      (IsErrShape r ∨ IsOkShape func kw r) := by
  constructor
  · simp [process_zipfile]
  · intro r hr
    rw [process_zipfile, List.mem_map] at hr
    obtain ⟨en, _, rfl⟩ := hr
    cases hdesc : get_description_element en.2 with
    | none =>
      have hrec : description_processor en.2 en.1 file_path func kw =
          [("zipfile", some (basename file_path)), ("xml_filename", some en.1),
            ("error", some notFoundMsg)] := by
        simp only [description_processor, hdesc]
      rw [hrec]
      exact ⟨by simp [coerceRecord, recordKeys],
        by simp [coerceRecord, recordKeys],
        Or.inl ⟨coerceValue (some (basename file_path)),
          coerceValue (some en.1), coerceValue (some notFoundMsg), rfl⟩⟩
    | some elem =>
      cases hp : lookupProcessor func with
      | none =>
        have hrec : description_processor en.2 en.1 file_path func kw =
            [("zipfile", some (basename file_path)),
              ("xml_filename", some en.1),
              ("error", some unknownProcMsg)] := by
          simp only [description_processor, hdesc, hp]
        rw [hrec]
        exact ⟨by simp [coerceRecord, recordKeys],
          by simp [coerceRecord, recordKeys],
          Or.inl ⟨coerceValue (some (basename file_path)),
            coerceValue (some en.1), coerceValue (some unknownProcMsg), rfl⟩⟩
      | some p =>
        cases hres : p elem kw with
        | error msg =>
          have hrec : description_processor en.2 en.1 file_path func kw =
              [("zipfile", some (basename file_path)),
                ("xml_filename", some en.1), ("error", some msg)] := by
            simp only [description_processor, hdesc, hp, hres]
          rw [hrec]
          exact ⟨by simp [coerceRecord, recordKeys],
            by simp [coerceRecord, recordKeys],
            Or.inl ⟨coerceValue (some (basename file_path)),
              coerceValue (some en.1), coerceValue (some msg), rfl⟩⟩
        | ok fields =>
          have hrec : description_processor en.2 en.1 file_path func kw =
              dictUpdate [("zipfile", some (basename file_path)),
                ("xml_filename", some en.1)] fields := by
            simp only [description_processor, hdesc, hp, hres]
          rw [hrec]
          refine ⟨?_, ?_, Or.inr ⟨some (basename file_path), some en.1, p,
            elem, fields, hp, hres, rfl⟩⟩
          · rw [coerceRecord_keys]
            exact dictUpdate_keys_sup fields _ "zipfile" (by simp [recordKeys])
          · rw [coerceRecord_keys]
            exact dictUpdate_keys_sup fields _ "xml_filename"
              (by simp [recordKeys])

/-! ### C3: the three parser failure kinds are reported identically -/

/-- A well-formed document without any description element. -/
def noDescDoc : XElem :=
  .mk (QName.mk (some "http://www.gribuser.ru/xml/fictionbook/2.0")
    "FictionBook") [] none .nil none

/-- A well-formed document holding an empty description element. -/
def tinyDescDoc : XElem :=
  .mk (QName.mk none "FictionBook") [] none
    (.cons (.mk (QName.mk none "description") [] none .nil none) .nil) none

/-- C3 counterexample: a malformed document (ParseError), a failing stream
(IOError) and a description-less document (NotFound) all produce the same
record with the same single diagnostic — the parser does not distinguish
the three failure kinds, and the ParseError message is not carried. -/
theorem error_kind_messages_counterexample :
    description_processor (DocOutcome.parseError "AttValue expected") "b.fb2"
        "lib/a.zip" "catalog" none =
      description_processor (DocOutcome.wellFormed noDescDoc) "b.fb2"
        "lib/a.zip" "catalog" none ∧
    description_processor (DocOutcome.ioError "Bad CRC-32 for file") "b.fb2"
        "lib/a.zip" "catalog" none =
      description_processor (DocOutcome.wellFormed noDescDoc) "b.fb2"
        "lib/a.zip" "catalog" none ∧
    lookupField (description_processor (DocOutcome.parseError
      "AttValue expected") "b.fb2" "lib/a.zip" "catalog" none) "error" =
        some (some notFoundMsg) :=
  ⟨rfl, rfl, rfl⟩

/-- C3 amended: malformed XML, stream failure and a missing description all
collapse to None inside get_description_element and are reported with one
and the same not-found diagnostic (the ParseError message is dropped); only
the unregistered-processor failure carries a distinct message. -/
theorem error_kind_messages (pmsg iomsg fname file_path func : String)
    (kw : Option String) (root : XElem)
    (hroot : findDescription root = none) :
    description_processor (DocOutcome.parseError pmsg) fname file_path func
        kw =
      [("zipfile", some (basename file_path)), ("xml_filename", some fname),
        ("error", some notFoundMsg)] ∧
    description_processor (DocOutcome.ioError iomsg) fname file_path func
        kw =
      [("zipfile", some (basename file_path)), ("xml_filename", some fname),
        ("error", some notFoundMsg)] ∧
    description_processor (DocOutcome.wellFormed root) fname file_path func
        kw =
      [("zipfile", some (basename file_path)), ("xml_filename", some fname),
        ("error", some notFoundMsg)] ∧
    (∀ root2 d, findDescription root2 = some d → lookupProcessor func = none →
      description_processor (DocOutcome.wellFormed root2) fname file_path
          func kw =
        [("zipfile", some (basename file_path)), ("xml_filename", some fname),
          ("error", some unknownProcMsg)]) ∧
    notFoundMsg ≠ unknownProcMsg := by
  refine ⟨rfl, rfl, ?_, ?_, by decide⟩
  · simp only [description_processor, get_description_element, hroot,
      Option.map_none']
  · intro root2 d h2 hfunc
    simp only [description_processor, get_description_element, h2, hfunc,
      Option.map_some']

theorem error_kind_messages_witness :
    description_processor (DocOutcome.parseError "junk") "b.fb2" "lib/a.zip"
        "nosuch" none =
      [("zipfile", some "a.zip"), ("xml_filename", some "b.fb2"),
        ("error", some notFoundMsg)] ∧
    description_processor (DocOutcome.wellFormed tinyDescDoc) "b.fb2"
        "lib/a.zip" "nosuch" none =
      [("zipfile", some "a.zip"), ("xml_filename", some "b.fb2"),
        ("error", some unknownProcMsg)] := by
  have h := error_kind_messages "junk" "io failure" "b.fb2" "lib/a.zip"
    "nosuch" none noDescDoc rfl
  refine ⟨h.1.trans (by decide), ?_⟩
  exact (h.2.2.2.1 tinyDescDoc
    (XElem.mk (QName.mk none "description") [] none .nil none) rfl rfl).trans
    (by decide)

/-! ### C10: the description lookup precedes the processor lookup -/

/-- C10: when no description tree can be extracted from the entry, the
record carries the not-found diagnostic whatever the processor name; an
unknown-processor diagnostic can only appear when a description tree was
successfully extracted. -/
theorem description_before_processor_lookup (oc : DocOutcome)
    (fname file_path func : String) (kw : Option String) :
    (get_description_element oc = none →
      description_processor oc fname file_path func kw =
        [("zipfile", some (basename file_path)), ("xml_filename", some fname),
          ("error", some notFoundMsg)]) ∧
    (lookupField (description_processor oc fname file_path func kw) "error" =
        some (some unknownProcMsg) →
      ∃ d, get_description_element oc = some d) := by
  constructor
  · intro h
    unfold description_processor
    rw [h]
  · intro herr
    cases hdesc : get_description_element oc with
    | some d => exact ⟨d, rfl⟩
    | none =>
      rw [description_processor] at herr
      rw [hdesc] at herr
      have : notFoundMsg = unknownProcMsg := by
        have hval : lookupField
            [("zipfile", some (basename file_path)),
              ("xml_filename", some fname), ("error", some notFoundMsg)]
            "error" = some (some notFoundMsg) := rfl
        rw [hval] at herr
        exact Option.some.inj (Option.some.inj herr)
      exact absurd this (by decide)

theorem description_before_processor_lookup_witness :
    description_processor (DocOutcome.ioError "x") "b.fb2" "a.zip" "catalog"
        none =
      [("zipfile", some "a.zip"), ("xml_filename", some "b.fb2"),
        ("error", some notFoundMsg)] ∧
    (∃ d, get_description_element (DocOutcome.wellFormed tinyDescDoc) =
      some d) := by
  constructor
  · exact ((description_before_processor_lookup (DocOutcome.ioError "x")
      "b.fb2" "a.zip" "catalog" none).1 rfl).trans (by decide)
  · exact (description_before_processor_lookup
      (DocOutcome.wellFormed tinyDescDoc) "b.fb2" "a.zip" "nosuch" none).2
      (by decide)

/-! ### C8 and C9: maintenance-loop error handling -/

theorem clear_append_continue :
    ∀ (pre rest : List ClearJob), (∀ k ∈ pre, (clearStep k).2 = true) →
      clear_zipfolder (pre ++ rest) =
        pre.map (fun k => (clearStep k).1) ++ clear_zipfolder rest := by
  intro pre
  induction pre with
  | nil => intro rest _; rfl
  | cons k pre ih =>
    intro rest h
    have hk : (clearStep k).2 = true := h k (List.mem_cons_self _ _)
    rw [List.cons_append, List.map_cons, List.cons_append]
    rw [show clear_zipfolder (k :: (pre ++ rest)) =
      (match clearStep k with
        | (ev, true) => ev :: clear_zipfolder (pre ++ rest)
        | (ev, false) => [ev]) from rfl]
    rcases hck : clearStep k with ⟨ev, b⟩
    rw [hck] at hk
    subst hk
    simp only
    rw [ih rest (fun j hj => h j (List.mem_cons_of_mem k hj))]

theorem repack_append_continue :
    ∀ (pre rest : List RepackJob), (∀ k ∈ pre, (repackStep k).2 = true) →
      repack_zipfolder (pre ++ rest) =
        (pre.map (fun k => (repackStep k).1)).flatten ++
          repack_zipfolder rest := by
  intro pre
  induction pre with
  | nil => intro rest _; rfl
  | cons k pre ih =>
    intro rest h
    have hk : (repackStep k).2 = true := h k (List.mem_cons_self _ _)
    rw [List.cons_append, List.map_cons, List.flatten_cons]
    rw [show repack_zipfolder (k :: (pre ++ rest)) =
      (match repackStep k with
        | (evs, true) => evs ++ repack_zipfolder (pre ++ rest)
        | (evs, false) => evs) from rfl]
    rcases hck : repackStep k with ⟨evs, b⟩
    rw [hck] at hk
    subst hk
    simp only
    rw [ih rest (fun j hj => h j (List.mem_cons_of_mem k hj)),
      List.append_assoc]

/-- C8: in both maintenance loops, a step is fatal exactly when a 7z
invocation raised FileNotFoundError (the external binary is absent); a
missing archive and a non-zero tool exit are reported and skipped and the
remaining archives are still processed, while the first fatal step ends
the run with every remaining archive untouched. -/
theorem maintenance_skip_and_fatal :
    (∀ j : ClearJob, (clearStep j).2 = false ↔
      (j.present = true ∧ j.files ≠ [] ∧
        j.deleteResult = RunResult.fileNotFound)) ∧
    (∀ j : RepackJob, (repackStep j).2 = false ↔
      (j.present = true ∧ j.files ≠ [] ∧
        (j.extractResult = RunResult.fileNotFound ∨
          (j.extractResult = RunResult.success ∧ j.extractedCount ≠ 0 ∧
            j.addResult = RunResult.fileNotFound)))) ∧
    (∀ j : ClearJob, j.present = false →
      clearStep j = (MEvent.archiveMissing j.zipname, true)) ∧
    (∀ (j : ClearJob) (so se : String), j.present = true → j.files ≠ [] →
      j.deleteResult = RunResult.calledProcessError so se →
      clearStep j = (MEvent.toolFailed j.zipname se, true)) ∧
    (∀ (pre post : List ClearJob) (j : ClearJob),
      (∀ k ∈ pre, (clearStep k).2 = true) → (clearStep j).2 = true →
      clear_zipfolder (pre ++ j :: post) =
        pre.map (fun k => (clearStep k).1) ++
          ((clearStep j).1 :: clear_zipfolder post)) ∧
    (∀ (pre post : List ClearJob) (j : ClearJob),
      (∀ k ∈ pre, (clearStep k).2 = true) → (clearStep j).2 = false →
      clear_zipfolder (pre ++ j :: post) =
        pre.map (fun k => (clearStep k).1) ++ [(clearStep j).1]) ∧
    (∀ (pre post : List RepackJob) (j : RepackJob),
      (∀ k ∈ pre, (repackStep k).2 = true) → (repackStep j).2 = true →
      repack_zipfolder (pre ++ j :: post) =
        (pre.map (fun k => (repackStep k).1)).flatten ++
          ((repackStep j).1 ++ repack_zipfolder post)) ∧
    (∀ (pre post : List RepackJob) (j : RepackJob),
      (∀ k ∈ pre, (repackStep k).2 = true) → (repackStep j).2 = false →
      repack_zipfolder (pre ++ j :: post) =
        (pre.map (fun k => (repackStep k).1)).flatten ++ (repackStep j).1) := by
  refine ⟨?_, ?_, ?_, ?_, ?_, ?_, ?_, ?_⟩
  · intro j
    obtain ⟨z, files, present, dres⟩ := j
    unfold clearStep
    cases present <;> cases files <;> cases dres <;> simp
  · intro j
    obtain ⟨z, files, present, eres, ecount, ares⟩ := j
    unfold repackStep
    cases present
    · simp
    · cases files
      · simp
      · cases eres with
        | success =>
          rcases Nat.eq_zero_or_pos ecount with h0 | h0
          · simp [h0]
          · have hne : ecount ≠ 0 := Nat.pos_iff_ne_zero.mp h0
            cases ares with
            | success => simp [hne]
            | calledProcessError so se =>
              by_cases hpat : noFilesPattern so se = true <;> simp [hpat, hne]
            | fileNotFound => simp [hne]
        | calledProcessError so se =>
          by_cases hpat : noFilesPattern so se = true <;> simp [hpat]
        | fileNotFound => simp
  · intro j h
    unfold clearStep
    rw [h]
    rfl
  · intro j so se hp hf hd
    unfold clearStep
    rw [hp, hd]
    rcases hfl : j.files with _ | ⟨f, fs⟩
    · exact absurd hfl hf
    · rfl
  · intro pre post j hpre hj
    rw [clear_append_continue pre (j :: post) hpre]
    congr 1
    rw [show clear_zipfolder (j :: post) =
      (match clearStep j with
        | (ev, true) => ev :: clear_zipfolder post
        | (ev, false) => [ev]) from rfl]
    rcases hcj : clearStep j with ⟨ev, b⟩
    rw [hcj] at hj
    subst hj
    rfl
  · intro pre post j hpre hj
    rw [clear_append_continue pre (j :: post) hpre]
    congr 1
    rw [show clear_zipfolder (j :: post) =
      (match clearStep j with
        | (ev, true) => ev :: clear_zipfolder post
        | (ev, false) => [ev]) from rfl]
    rcases hcj : clearStep j with ⟨ev, b⟩
    rw [hcj] at hj
    subst hj
    rfl
  · intro pre post j hpre hj
    rw [repack_append_continue pre (j :: post) hpre]
    congr 1
    rw [show repack_zipfolder (j :: post) =
      (match repackStep j with
        | (evs, true) => evs ++ repack_zipfolder post
        | (evs, false) => evs) from rfl]
    rcases hcj : repackStep j with ⟨evs, b⟩
    rw [hcj] at hj
    subst hj
    rfl
  · intro pre post j hpre hj
    rw [repack_append_continue pre (j :: post) hpre]
    congr 1
    rw [show repack_zipfolder (j :: post) =
      (match repackStep j with
        | (evs, true) => evs ++ repack_zipfolder post
        | (evs, false) => evs) from rfl]
    rcases hcj : repackStep j with ⟨evs, b⟩
    rw [hcj] at hj
    subst hj
    rfl

def cjMissing : ClearJob :=
  { zipname := "m.zip", files := ["a.fb2"], present := false,
    deleteResult := RunResult.success }

def cjFatal : ClearJob :=
  { zipname := "f.zip", files := ["b.fb2"], present := true,
    deleteResult := RunResult.fileNotFound }

def cjOk : ClearJob :=
  { zipname := "o.zip", files := ["c.fb2"], present := true,
    deleteResult := RunResult.success }

def rjFail : RepackJob :=
  { zipname := "f.zip", files := ["a.fb2"], present := true,
    extractResult := RunResult.calledProcessError "" "err", extractedCount := 0,
    addResult := RunResult.success }

def rjFatal : RepackJob :=
  { zipname := "g.zip", files := ["b.fb2"], present := true,
    extractResult := RunResult.fileNotFound, extractedCount := 0,
    addResult := RunResult.success }

def rjOk : RepackJob :=
  { zipname := "h.zip", files := ["c.fb2"], present := true,
    extractResult := RunResult.success, extractedCount := 1,
    addResult := RunResult.success }

theorem maintenance_skip_and_fatal_witness :
    clear_zipfolder [cjMissing, cjFatal, cjOk] =
      [MEvent.archiveMissing "m.zip", MEvent.toolMissingFatal] ∧
    repack_zipfolder [rjFail, rjFatal, rjOk] =
      [MEvent.toolFailed "f.zip" "err", MEvent.toolMissingFatal] := by
  constructor
  · have h := maintenance_skip_and_fatal.2.2.2.2.2.1 [cjMissing] [cjOk]
      cjFatal (by decide) (by decide)
    exact h.trans (by decide)
  · have h := maintenance_skip_and_fatal.2.2.2.2.2.2.2 [rjFail] [rjOk]
      rjFatal (by decide) (by decide)
    exact h.trans (by decide)

/-- A repack job whose keep set shares nothing with the source archive:
the 7z extraction either succeeds extracting nothing or exits non-zero
printing "No files to process". -/
def EmptyIntersection (j : RepackJob) : Prop :=
  j.present = true ∧ j.files ≠ [] ∧
    ((j.extractResult = RunResult.success ∧ j.extractedCount = 0) ∨
      (∃ so se, j.extractResult = RunResult.calledProcessError so se ∧
        noFilesPattern so se = true))

/-- C9: when the keep set intersects the source archive in nothing, the
archive's step reports the no-matches status, emits no created-archive
event (no destination file is written), and the run continues with the
remaining archives. -/
theorem repack_empty_keep_set (pre post : List RepackJob) (j : RepackJob)
    (hpre : ∀ k ∈ pre, (repackStep k).2 = true)
    (hj : EmptyIntersection j) :
    repackStep j = ([MEvent.noMatches j.zipname], true) ∧
    (∀ n, MEvent.createdArchive j.zipname n ∉ (repackStep j).1) ∧
    repack_zipfolder (pre ++ j :: post) =
      (pre.map (fun k => (repackStep k).1)).flatten ++
        (MEvent.noMatches j.zipname :: repack_zipfolder post) := by
  obtain ⟨hp, hf, hcase⟩ := hj
  have hstep : repackStep j = ([MEvent.noMatches j.zipname], true) := by
    unfold repackStep
    rw [hp]
    rcases hfl : j.files with _ | ⟨f, fs⟩
    · exact absurd hfl hf
    · rcases hcase with ⟨hex, hcount⟩ | ⟨so, se, hex, hpat⟩
      · rw [hex]
        simp [hcount]
      · rw [hex]
        simp [hpat]
  refine ⟨hstep, ?_, ?_⟩
  · intro n
    rw [hstep]
    simp
  · rw [repack_append_continue pre (j :: post) hpre]
    congr 1
    rw [show repack_zipfolder (j :: post) =
      (match repackStep j with
        | (evs, true) => evs ++ repack_zipfolder post
        | (evs, false) => evs) from rfl]
    rw [hstep]
    rfl

def rjEmptyA : RepackJob :=
  { zipname := "e.zip", files := ["x.fb2"], present := true,
    extractResult := RunResult.success, extractedCount := 0,
    addResult := RunResult.success }

def rjEmptyB : RepackJob :=
  { zipname := "n.zip", files := ["y.fb2"], present := true,
    extractResult :=
      RunResult.calledProcessError "No files to process\nFiles: 0" "",
    extractedCount := 0, addResult := RunResult.success }

theorem repack_empty_keep_set_witness :
    repack_zipfolder [rjEmptyA, rjEmptyB, rjOk] =
      [MEvent.noMatches "e.zip", MEvent.noMatches "n.zip",
        MEvent.createdArchive "h.zip" 1] := by
  have h := (repack_empty_keep_set [] [rjEmptyB, rjOk] rjEmptyA
    (by decide) ⟨rfl, by decide, Or.inl ⟨rfl, rfl⟩⟩).2.2
  exact h.trans (by decide)

/-! ### C5: author names and ids join independently -/

def textLeaf (t0 v : String) : XElem :=
  .mk (QName.mk none t0) [] (some v) .nil none

/-- An author with first name, last name (no middle name) and an id. -/
def authorWithId (fn ln idv : String) : XElem :=
  .mk (QName.mk none "author") [] none
    (.cons (textLeaf "first-name" fn)
     (.cons (textLeaf "last-name" ln)
      (.cons (textLeaf "id" idv) .nil))) none

/-- An author with first and last name but no id element. -/
def authorNoId (fn ln : String) : XElem :=
  .mk (QName.mk none "author") [] none
    (.cons (textLeaf "first-name" fn)
     (.cons (textLeaf "last-name" ln) .nil)) none

/-- An author element with no sub-elements at all. -/
def authorEmpty : XElem :=
  .mk (QName.mk none "author") [] none .nil none

/-- A description with three authors under title-info: one full author
with an id, one author without an id, one empty author element. -/
def threeAuthorsDesc (fn1 ln1 id1 fn2 ln2 : String) : XElem :=
  .mk (QName.mk none "description") [] none
    (.cons (.mk (QName.mk none "title-info") [] none
      (.cons (authorWithId fn1 ln1 id1)
       (.cons (authorNoId fn2 ln2)
        (.cons authorEmpty .nil))) none) .nil) none

/-- The claim's name assembly, stated on its own terms: take the three
name-part sub-element texts (a missing sub-element reads as the empty
string), trim each part independently, omit the parts that are then
empty, and join the remaining parts with single spaces. -/
def assembledName (a : XElem) : String :=
  String.intercalate " "
    ((([findtextD a "first-name", findtextD a "middle-name",
        findtextD a "last-name"]).map pstrip).filter
      (fun part => decide (part ≠ "")))

/-- The claim's id extraction: the trimmed text of the author's id
sub-element (empty when the sub-element is missing). -/
def authorId (a : XElem) : String := pstrip (findtextD a "id")

/-- Filtering a mapped list is mapping the filtered list. -/
theorem map_filter_comm (f : XElem → String) (p : String → Bool) :
    ∀ l : List XElem,
      (l.map f).filter p = (l.filter (fun a => p (f a))).map f := by
  intro l
  induction l with
  | nil => rfl
  | cons a l ih =>
    simp only [List.map_cons, List.filter_cons]
    cases h : p (f a) <;> simp [h, ih]

/-- C5: for every description tree, the author field joins with "; " the
assembled names (each part independently trimmed, missing or empty parts
omitted, remaining parts joined by single spaces) of exactly those authors
whose assembled name is non-empty, in order; and the id_author field joins
with "; " the trimmed ids of exactly those authors whose trimmed id is
non-empty, in order — an author with a missing id contributes nothing and
does not shift subsequent ids.  In particular (second conjunct, on
untrimmed input text), two authors where the second lacks an id — plus a
childless author element, which is discarded — yield an id_author holding
exactly one id while author holds the two trimmed names joined by "; ". -/
theorem authors_fields :
    (∀ e : XElem,
      get_authors_string e =
        [("author", some (String.intercalate "; "
            (((xpathSelect e "title-info/author").filter
                (fun a => decide (assembledName a ≠ ""))).map assembledName))),
         ("id_author", some (String.intercalate "; "
            (((xpathSelect e "title-info/author").filter
                (fun a => decide (authorId a ≠ ""))).map authorId)))]) ∧
    get_authors_string
        (threeAuthorsDesc "  Ivan " "Petrov  " " ip1 " "Anna" " Sidorova") =
      [("author", some "Ivan Petrov; Anna Sidorova"),
       ("id_author", some "ip1")] := by
  constructor
  · intro e
    simp only [get_authors_string]
    rw [map_filter_comm full_name (fun name => decide (name ≠ "")),
      map_filter_comm (fun author => pstrip (findtextD author "id"))
        (fun part => decide (part ≠ ""))]
    rfl
  · decide

end HomeLib
